import Mathlib

/-!
Verification of the forgeflare coding-agent core against its specification.

The definitions below are a shallow embedding of the Rust source:
  - src/api.rs    : content model (Role, ContentBlock, Message, StopReason)
                    and the streaming SSE decoder (SseParser).
  - src/main.rs   : context-window management (trim_conversation,
                    truncate_oversized_blocks) and error recovery
                    (recover_conversation), plus the null-input guard of the
                    agent loop.
  - src/tools/mod.rs : tool dispatch (dispatch_tool), edit_file (edit_exec)
                    and the byte-capped truncation helper (truncate_with_marker).

Rust strings are modelled as Lean String values (sequences of Unicode scalar
values); Rust byte positions and byte lengths are modelled through the UTF-8
byte size of each character, so that String::len, floor_char_boundary,
is_char_boundary and truncate are reproduced exactly at character granularity.
Serialized message sizes reproduce the serde_json wire format byte for byte
for the constructs the program uses.  External library calls with effects
(the filesystem in edit_file, serde_json::from_str inside the SSE decoder)
are modelled by explicit state passing and by an abstract parse parameter.
-/

namespace Forgeflare

/-- JSON values as produced by serde_json, restricted to integer numerals
(the program never constructs non-integer numbers). -/
inductive Json where
  | null : Json
  | bool (b : Bool) : Json
  | num (n : Int) : Json
  | str (s : String) : Json
  | arr (elems : List Json) : Json
  | obj (fields : List (String × Json)) : Json
deriving Inhabited

/-- Role of a message, from src/api.rs. -/
inductive Role where
  | User : Role
  | Assistant : Role
deriving DecidableEq, Inhabited

/-- Content blocks, from the ContentBlock enum in src/api.rs. -/
inductive ContentBlock where
  | Text (text : String) : ContentBlock
  | ToolUse (id : String) (name : String) (input : Json) : ContentBlock
  | ToolResult (tool_use_id : String) (content : String) (is_error : Option Bool) : ContentBlock
deriving Inhabited

/-- Messages, from the Message struct in src/api.rs. -/
structure Message where
  role : Role
  content : List ContentBlock
deriving Inhabited

/-- Stop reasons, from the StopReason enum in src/api.rs. -/
inductive StopReason where
  | EndTurn : StopReason
  | ToolUse : StopReason
  | MaxTokens : StopReason
deriving DecidableEq, Inhabited

/-- Number of bytes of the UTF-8 encoding of one character. -/
def charBytes (c : Char) : Nat :=
  if c.val < 0x80 then 1
  else if c.val < 0x800 then 2
  else if c.val < 0x10000 then 3
  else 4

/-- UTF-8 byte length of a character list; models Rust str::len. -/
def utf8Len (l : List Char) : Nat := (l.map charBytes).sum

/-- Byte length of a string; models Rust String::len (bytes, not chars). -/
def strBytes (s : String) : Nat := utf8Len s.data

/-- Longest prefix of a character list whose UTF-8 byte length is at most k.
Models the combination of floor_char_boundary k (the largest char boundary
at most k) followed by String::truncate at that boundary. -/
def takeBytes : List Char → Nat → List Char
  | [], _ => []
  | c :: cs, k => if charBytes c ≤ k then c :: takeBytes cs (k - charBytes c) else []

/-- String version of takeBytes. -/
def byteTake (s : String) (k : Nat) : String := String.mk (takeBytes s.data k)

/-- Lowercase hex digit, used by serde_json control-character escapes. -/
def hexDigit (n : Nat) : Char :=
  if n < 10 then Char.ofNat (48 + n) else Char.ofNat (87 + n)

/-- Escape of a single character inside a JSON string literal, exactly as
serde_json emits it in to_string. -/
def escChar (c : Char) : List Char :=
  if c = '"' then ['\\', '"']
  else if c = '\\' then ['\\', '\\']
  else if c = '\x08' then ['\\', 'b']
  else if c = '\x09' then ['\\', 't']
  else if c = '\x0a' then ['\\', 'n']
  else if c = '\x0c' then ['\\', 'f']
  else if c = '\x0d' then ['\\', 'r']
  else if c.val < 0x20 then ['\\', 'u', '0', '0', hexDigit (c.toNat / 16), hexDigit (c.toNat % 16)]
  else [c]

/-- Escape the characters of a string for inclusion in a JSON string literal. -/
def escStr (s : String) : String := String.mk (s.data.flatMap escChar)

/-- JSON string literal: quote, escaped characters, quote. -/
def jstr (s : String) : String := "\"" ++ escStr s ++ "\""

mutual

/-- Serialization of a Json value in serde_json to_string format
(no whitespace, fields in order). -/
def serializeJson : Json → String
  | .null => "null"
  | .bool true => "true"
  | .bool false => "false"
  | .num n => toString n
  | .str s => jstr s
  | .arr elems => "[" ++ serializeJsonList elems ++ "]"
  | .obj fields => "\x7b" ++ serializeJsonObj fields ++ "\x7d"

/-- Comma-joined serialization of array elements. -/
def serializeJsonList : List Json → String
  | [] => ""
  | [x] => serializeJson x
  | x :: y :: rest => serializeJson x ++ "," ++ serializeJsonList (y :: rest)

/-- Comma-joined serialization of object fields. -/
def serializeJsonObj : List (String × Json) → String
  | [] => ""
  | [(k, v)] => jstr k ++ ":" ++ serializeJson v
  | (k, v) :: f :: rest => jstr k ++ ":" ++ serializeJson v ++ "," ++ serializeJsonObj (f :: rest)
end

/-- Serialization of one content block, following the serde derive on
ContentBlock in src/api.rs (internally tagged with "type"; is_error skipped
when None). -/
def serializeBlock : ContentBlock → String
  | .Text text => "\x7b\"type\":\"text\",\"text\":" ++ jstr text ++ "\x7d"
  | .ToolUse id name input =>
      "\x7b\"type\":\"tool_use\",\"id\":" ++ jstr id ++ ",\"name\":" ++ jstr name
        ++ ",\"input\":" ++ serializeJson input ++ "\x7d"
  | .ToolResult tuid content is_error =>
      "\x7b\"type\":\"tool_result\",\"tool_use_id\":" ++ jstr tuid
        ++ ",\"content\":" ++ jstr content
        ++ (match is_error with
            | none => ""
            | some true => ",\"is_error\":true"
            | some false => ",\"is_error\":false")
        ++ "\x7d"

/-- Comma-joined serialization of a block list. -/
def serializeBlocks : List ContentBlock → String
  | [] => ""
  | [b] => serializeBlock b
  | b :: c :: rest => serializeBlock b ++ "," ++ serializeBlocks (c :: rest)

/-- Serialization of a message, following the serde derives on Message and
Role in src/api.rs. -/
def serializeMessage (m : Message) : String :=
  "\x7b\"role\":" ++ (match m.role with
                      | .User => "\"user\""
                      | .Assistant => "\"assistant\"")
    ++ ",\"content\":[" ++ serializeBlocks m.content ++ "]\x7d"

/-- Serialized size of one message in bytes; models
serde_json::to_string(m).map_or(0, s.len) in src/main.rs (serialization of
a Message never fails, so the map_or default is never taken). -/
def msgSize (m : Message) : Nat := strBytes (serializeMessage m)

/-- Total serialized size of a conversation. -/
def convSize (conv : List Message) : Nat := (conv.map msgSize).sum

/-- Marker appended by truncate_oversized_blocks in src/main.rs. -/
def truncMarker : String := "\n... (truncated to fit context window)"

/-- Truncation of one text field by truncate_oversized_blocks (src/main.rs,
body of the eligible branch): keep = len.saturating_sub(remaining).max(1000),
end = floor_char_boundary(keep), truncate to end, subtract the savings from
the remaining deficit (saturating), append the marker.  Returns the new
remaining deficit and the new text.  Applied only when len > 10000. -/
def truncText (r : Nat) (t : String) : Nat × String :=
  if strBytes t > 10000 then
    (r - (strBytes t - strBytes (byteTake t (Nat.max (strBytes t - r) 1000))),
     byteTake t (Nat.max (strBytes t - r) 1000) ++ truncMarker)
  else (r, t)

/-- Per-block step of truncate_oversized_blocks: the loop returns as soon as
the remaining deficit is zero, skips ToolUse blocks, and shortens the text of
Text and ToolResult blocks via truncText. -/
def truncBlock (r : Nat) (b : ContentBlock) : Nat × ContentBlock :=
  if r = 0 then (r, b)
  else
    match b with
    | .Text t => ((truncText r t).1, .Text (truncText r t).2)
    | .ToolResult tuid c e => ((truncText r c).1, .ToolResult tuid (truncText r c).2 e)
    | .ToolUse id name input => (r, .ToolUse id name input)

/-- Fold of truncBlock over the blocks of one message, threading the
remaining deficit left to right. -/
def truncBlocks : Nat → List ContentBlock → Nat × List ContentBlock
  | r, [] => (r, [])
  | r, b :: bs =>
      let p := truncBlock r b
      let q := truncBlocks p.1 bs
      (q.1, p.2 :: q.2)

/-- Fold of truncBlocks over the messages of the conversation, threading the
remaining deficit left to right (the Rust code iterates over
conversation.iter_mut().flat_map over content). -/
def truncMsgs : Nat → List Message → Nat × List Message
  | r, [] => (r, [])
  | r, m :: ms =>
      let p := truncBlocks r m.content
      let q := truncMsgs p.1 ms
      (q.1, ⟨m.role, p.2⟩ :: q.2)

/-- Embedding of truncate_oversized_blocks (src/main.rs lines 116-142):
no-op when the conversation already fits, otherwise walk every content block
with the deficit total - max_bytes. -/
def truncate_oversized_blocks (conv : List Message) (maxBytes : Nat) : List Message :=
  if convSize conv ≤ maxBytes then conv
  else (truncMsgs (convSize conv - maxBytes) conv).2

/-- First-block test used by the exchange-boundary filter and by
recover_conversation: is the first content block a Text block. -/
def firstIsText (m : Message) : Bool :=
  match m.content.head? with
  | some (.Text _) => true
  | _ => false

/-- First-block test used by recover_conversation: is the first content
block a ToolResult block. -/
def firstIsToolResult (m : Message) : Bool :=
  match m.content.head? with
  | some (.ToolResult _ _ _) => true
  | _ => false

/-- Exchange boundary predicate of trim_conversation: a User message whose
first content block is Text. -/
def isBoundaryMsg (m : Message) : Bool :=
  match m.role with
  | .User => firstIsText m
  | .Assistant => false

/-- Indices of exchange boundaries, counting from start index i; embeds
conversation.iter().enumerate().filter(boundary).map(index). -/
def boundariesFrom (i : Nat) : List Message → List Nat
  | [] => []
  | m :: rest =>
      if isBoundaryMsg m then i :: boundariesFrom (i + 1) rest
      else boundariesFrom (i + 1) rest

/-- Embedding of trim_conversation (src/main.rs lines 76-114).  The Rust
code drains the prefix before the chosen cut index in place; the embedding
returns the resulting conversation.  The keep_last binding of the source is
boundaries.length - 1 (saturating), its candidate cut slice
boundaries[1..=keep_last] is boundaries.drop 1, and boundaries[keep_last] is
the last boundary. -/
def trim_conversation (conv : List Message) (maxBytes : Nat) : List Message :=
  if convSize conv ≤ maxBytes then conv
  else if (boundariesFrom 0 conv).length - 1 = 0 then
    truncate_oversized_blocks conv maxBytes
  else
    match ((boundariesFrom 0 conv).drop 1).find?
        (fun cut => convSize conv - ((conv.map msgSize).take cut).sum ≤ maxBytes) with
    | some cut => conv.drop cut
    | none =>
        truncate_oversized_blocks (conv.drop ((boundariesFrom 0 conv).getLast?.getD 0)) maxBytes

/-- Embedding of recover_conversation (src/main.rs lines 66-73): pop the
trailing message if it is a User message; if its first block was a
ToolResult, also pop the new trailing message if it is an Assistant one. -/
def recover_conversation (conv : List Message) : List Message :=
  match conv.getLast? with
  | none => conv
  | some m =>
      if m.role = Role.User then
        let rest := conv.dropLast
        if firstIsToolResult m then
          match rest.getLast? with
          | some m2 => if m2.role = Role.Assistant then rest.dropLast else rest
          | none => rest
        else rest
      else conv

/-- Shape of a content block: everything except the text payloads of Text
and ToolResult blocks (ToolUse blocks are never modified by truncation, so
their full content is part of the shape). -/
def blockShape : ContentBlock → ContentBlock
  | .Text _ => .Text ""
  | .ToolUse id name input => .ToolUse id name input
  | .ToolResult tuid _ e => .ToolResult tuid "" e

/-- Shape of a message: role plus the shapes of its blocks. -/
def msgShape (m : Message) : Message := ⟨m.role, m.content.map blockShape⟩

/-- Shape of a conversation. -/
def convShape (conv : List Message) : List Message := conv.map msgShape

/-- Serialized overhead of a single-Text-block User message around the
escaped text payload. -/
def userTextOverhead : Nat := msgSize ⟨Role.User, [ContentBlock.Text ""]⟩

/-- Marker appended by truncate_with_marker in src/tools/mod.rs. -/
def bashTruncMarker : String := "\n... (output truncated at 100KB)"

/-- Embedding of truncate_with_marker (src/tools/mod.rs lines 138-145):
the Rust code finds the largest char boundary at most max via
(0..=max).rev().find(is_char_boundary).unwrap_or(0), truncates there and
appends the marker; byteTake computes exactly that boundary prefix. -/
def truncate_with_marker (s : String) (cap : Nat) : String :=
  byteTake s cap ++ bashTruncMarker

/-- Oversized single-block text used to exercise the truncation fallback:
one distinguished leading character followed by 10000 ASCII bytes. -/
def c2Text : String := String.mk ('y' :: List.replicate 10000 'x')

/-- Head retained by the fallback from c2Text at a deficit of 5 bytes. -/
def c2Retained : String := String.mk ('y' :: List.replicate 9995 'x')

/-- Single-message conversation around c2Text. -/
def c2Msg : Message := ⟨Role.User, [ContentBlock.Text c2Text]⟩

/-- Budget 5 bytes below the serialized size of c2Msg. -/
def c2Budget : Nat := msgSize c2Msg - 5

/-- Text of 5001 two-byte characters (10002 bytes), eligible for the
context-window truncation fallback. -/
def mbText : String := String.mk (List.replicate 5001 'é')

/-- Oversized single-block text exercising the 1000-byte keep floor. -/
def c10Text : String := String.mk (List.replicate 20000 'x')

/-- Single-message conversation around c10Text. -/
def c10Msg : Message := ⟨Role.User, [ContentBlock.Text c10Text]⟩

/-- Keep-floor head retained from c10Text. -/
def c10Kept : String := String.mk (List.replicate 1000 'x')

/-- Message left after the fallback runs on [c10Msg] with budget 100. -/
def c10Result : Message := ⟨Role.User, [ContentBlock.Text (c10Kept ++ truncMarker)]⟩

/-- Sample User text message for concrete instantiations. -/
def wUserText : Message := ⟨Role.User, [ContentBlock.Text "hi"]⟩

/-- Sample Assistant text message. -/
def wAssistantText : Message := ⟨Role.Assistant, [ContentBlock.Text "ok"]⟩

/-- Sample Assistant tool-use message. -/
def wAssistantTool : Message :=
  ⟨Role.Assistant, [ContentBlock.ToolUse "t1" "bash" (Json.obj [("command", Json.str "ls")])]⟩

/-- Sample User tool-result message. -/
def wUserToolResult : Message := ⟨Role.User, [ContentBlock.ToolResult "t1" "out" none]⟩

/-- Scan of the non-overlapping, leftmost-first occurrence count: the first
argument is the number of characters still to skip past the last match
(advance by the pattern length on a match, by one character otherwise). -/
def countOccsAux (pat : List Char) : Nat → List Char → Nat
  | _, [] => 0
  | 0, c :: rest =>
      if pat.isPrefixOf (c :: rest) then 1 + countOccsAux pat (pat.length - 1) rest
      else countOccsAux pat 0 rest
  | k + 1, _ :: rest => countOccsAux pat k rest

/-- Count of non-overlapping, leftmost-first occurrences of pat in a
character list; models Rust str::matches(pat).count() for nonempty pat
(edit_exec only counts after ruling out the empty pattern). -/
def countOccs (pat l : List Char) : Nat := countOccsAux pat 0 l

/-- Replacement of the first occurrence of pat by rep; models Rust
String::replacen(pat, rep, 1). -/
def replaceFirst (pat rep : List Char) : List Char → List Char
  | [] => []
  | c :: rest =>
      if pat.isPrefixOf (c :: rest) then rep ++ List.drop pat.length (c :: rest)
      else c :: replaceFirst pat rep rest

/-- String wrapper for countOccs. -/
def strCount (s pat : String) : Nat := countOccs pat.data s.data

/-- String wrapper for replaceFirst. -/
def strReplaceFirst (s pat rep : String) : String :=
  String.mk (replaceFirst pat.data rep.data s.data)

/-- Result of one edit_file invocation: the returned Result and the file
state afterwards (None = no file at the path). -/
structure EditOutcome where
  result : Except String String
  file : Option String

/-- Size ceiling shared by read_file and edit_file (src/tools/mod.rs). -/
def MAX_READ_SIZE : Nat := 1024 * 1024

/-- Embedding of edit_exec (src/tools/mod.rs lines 208-241) after argument
extraction, with the filesystem modelled as the optional text content of
the target path (metadata length of a text file is its byte length; the
creation branch's mkdir of parent directories has no observable effect on
the single modelled path).  The error message of the metadata call on a
missing path is the OS text interpolated by the source's map_err. -/
def edit_exec (file : Option String) (path old_str new_str : String) : EditOutcome :=
  if old_str = new_str then ⟨.error "old_str and new_str must differ", file⟩
  else
    match file with
    | none =>
        if old_str = "" then ⟨.ok ("Created " ++ path), some new_str⟩
        else ⟨.error (path ++ ": No such file or directory (os error 2)"), none⟩
    | some content =>
        if strBytes content > MAX_READ_SIZE then
          ⟨.error (path ++ ": " ++ toString (strBytes content / 1024) ++ "KB exceeds "
            ++ toString (MAX_READ_SIZE / 1024) ++ "KB edit limit"), some content⟩
        else if old_str = "" then ⟨.ok "OK", some (content ++ new_str)⟩
        else
          match strCount content old_str with
          | 0 => ⟨.error "old_str not found", some content⟩
          | 1 => ⟨.ok "OK", some (strReplaceFirst content old_str new_str)⟩
          | Nat.succ (Nat.succ k) =>
              ⟨.error ("old_str found " ++ toString (k + 2) ++ " times, must be unique"),
               some content⟩

/-- Test used by the agent loop and decoder for the null sentinel; models
serde_json Value::is_null. -/
def Json.isNull : Json → Bool
  | .null => true
  | _ => false

/-- Guarded tool bodies of the registry.  The Rust bodies (read_exec,
list_exec, bash_exec, edit_exec, search_exec in src/tools/mod.rs) perform
filesystem and process effects, so dispatch is parameterized over their
behavior: each field maps the structured input to Ok or Err text. -/
structure ToolImpls where
  read_exec : Json → Except String String
  list_exec : Json → Except String String
  bash_exec : Json → Except String String
  edit_exec : Json → Except String String
  search_exec : Json → Except String String

/-- Names registered by the tools! macro invocation in src/tools/mod.rs, in
declaration order. -/
def registeredToolNames : List String :=
  ["read_file", "list_files", "bash", "edit_file", "code_search"]

/-- Embedding of dispatch_tool (src/tools/mod.rs lines 24-37, expanded from
the tools! macro): look the name up in the fixed registry, run the guarded
body, and wrap the outcome in exactly one ToolResult — Ok maps to an absent
is_error, Err and unknown names to is_error = true. -/
def dispatch_tool (impls : ToolImpls) (name : String) (input : Json) (id : String) :
    ContentBlock :=
  match
    (match name with
     | "read_file" => impls.read_exec input
     | "list_files" => impls.list_exec input
     | "bash" => impls.bash_exec input
     | "edit_file" => impls.edit_exec input
     | "code_search" => impls.search_exec input
     | _ => Except.error ("tool '" ++ name ++ "' not found"))
  with
  | .ok s => ContentBlock.ToolResult id s none
  | .error s => ContentBlock.ToolResult id s (some true)

/-- Embedding of the per-ToolUse-block step of the agent loop
(src/main.rs lines 263-281): a null input short-circuits to the corrupt
input error result without calling dispatch_tool; otherwise the block is
dispatched. -/
def handle_tool_use (impls : ToolImpls) (id name : String) (input : Json) : ContentBlock :=
  if Json.isNull input then
    ContentBlock.ToolResult id "tool input was corrupt (JSON parse failed)" (some true)
  else dispatch_tool impls name input id

/-- Decoder-side errors, from AgentError in src/api.rs (the variants the
SSE parser itself can produce: a serde_json error on a data line, or a
stream-level parse error with message). -/
inductive AgentError where
  | Json : AgentError
  | StreamParse (msg : String) : AgentError

/-- Field access on a JSON value; models serde_json Value indexing with a
string key, which yields Null for a missing key or a non-object. -/
def Json.get (j : Json) (key : String) : Json :=
  match j with
  | .obj fields =>
      match fields.find? (fun f => f.1 = key) with
      | some f => f.2
      | none => .null
  | _ => .null

/-- Models serde_json Value::as_str. -/
def Json.asStr : Json → Option String
  | .str s => some s
  | _ => none

/-- Models serde_json Value::as_u64 on the integer-numeral fragment of the
model (defined for non-negative numerals, as in the source's usize cast). -/
def Json.asU64 : Json → Option Nat
  | .num n => if 0 ≤ n then some n.toNat else none
  | _ => none

/-- Streaming decoder state, from the SseParser struct in src/api.rs;
SseParser.init is its Default instance. -/
structure SseParser where
  event : String
  blocks : List ContentBlock
  fragments : List String
  stop_reason : Option StopReason
  message_complete : Bool

/-- Default SseParser state. -/
def SseParser.init : SseParser := ⟨"", [], [], none, false⟩

/-- Handling of one data payload under the current event name, embedding
the event match of SseParser::process_line (src/api.rs lines 87-163).  The
payload pl is the already-parsed JSON of the data line; the parse parameter
abstracts serde_json::from_str as used on an accumulated tool-input
fragment at content_block_stop (console printing side effects of the
source have no state effect and are not modelled). -/
def process_event (parse : String → Option Json) (p : SseParser) (pl : Json) :
    Except AgentError SseParser :=
  match p.event with
  | "content_block_start" =>
      let b := Json.get pl "content_block"
      let blk :=
        if (Json.get b "type").asStr = some "tool_use" then
          match (Json.get b "id").asStr.filter (fun s => s ≠ ""),
              (Json.get b "name").asStr.filter (fun s => s ≠ "") with
          | some id, some name => ContentBlock.ToolUse id name Json.null
          | _, _ => ContentBlock.Text ""
        else ContentBlock.Text ""
      .ok { p with blocks := p.blocks ++ [blk], fragments := p.fragments ++ [""] }
  | "content_block_delta" =>
      match (Json.get pl "index").asU64 with
      | none => .ok p
      | some idx =>
          match (Json.get (Json.get pl "delta") "type").asStr with
          | some "text_delta" =>
              match p.blocks[idx]? with
              | some (ContentBlock.Text text) =>
                  .ok { p with blocks := (p.blocks.set idx (ContentBlock.Text
                          (text ++ ((Json.get (Json.get pl "delta") "text").asStr.getD "")))) }
              | _ => .ok p
          | some "input_json_delta" =>
              match p.fragments[idx]? with
              | some f =>
                  .ok { p with fragments := (p.fragments.set idx
                          (f ++ ((Json.get (Json.get pl "delta") "partial_json").asStr.getD ""))) }
              | none => .ok p
          | _ => .ok p
  | "content_block_stop" =>
      match (Json.get pl "index").asU64 with
      | none => .ok p
      | some idx =>
          match p.blocks[idx]?, p.fragments[idx]? with
          | some (ContentBlock.ToolUse id name _), some f =>
              if f ≠ "" then
                .ok { p with blocks := (p.blocks.set idx
                        (ContentBlock.ToolUse id name ((parse f).getD Json.null))) }
              else .ok p
          | _, _ => .ok p
  | "message_delta" =>
      match (Json.get (Json.get pl "delta") "stop_reason").asStr with
      | some "end_turn" => .ok { p with stop_reason := some StopReason.EndTurn }
      | some "tool_use" => .ok { p with stop_reason := some StopReason.ToolUse }
      | some "max_tokens" => .ok { p with stop_reason := some StopReason.MaxTokens }
      | _ => .ok p
  | "message_stop" => .ok { p with message_complete := true }
  | "error" =>
      .error (AgentError.StreamParse ("stream error: "
        ++ ((Json.get (Json.get pl "error") "message").asStr.getD "unknown stream error")))
  | _ => .ok p

/-- Models str::strip_prefix. -/
def dropPre (pre s : String) : Option String :=
  if pre.data.isPrefixOf s.data then some (String.mk (s.data.drop pre.data.length))
  else none

/-- Embedding of SseParser::process_line (src/api.rs lines 75-165): blank
lines are skipped, an event line replaces the current event name, a data
line is parsed (a malformed payload is a hard decode error, the question
mark on from_str) and handled under the current event, and any other line
is ignored. -/
def process_line (parse : String → Option Json) (p : SseParser) (line : String) :
    Except AgentError SseParser :=
  if line = "" then .ok p
  else
    match dropPre "event: " line with
    | some ev => .ok { p with event := ev }
    | none =>
        match dropPre "data: " line with
        | none => .ok p
        | some data =>
            match parse data with
            | none => .error AgentError.Json
            | some pl => process_event parse p pl

/-- Folding process_line over a line list, stopping at the first error, as
the send_message read loop does. -/
def processLines (parse : String → Option Json) :
    SseParser → List String → Except AgentError SseParser
  | p, [] => .ok p
  | p, line :: rest =>
      match process_line parse p line with
      | .error e => .error e
      | .ok q => processLines parse q rest

/-- Retention predicate of SseParser::finish: drop empty placeholder Text
blocks, keep everything else. -/
def keepBlock : ContentBlock → Bool
  | .Text t => !(t = "")
  | _ => true

/-- Embedding of SseParser::finish (src/api.rs lines 167-176). -/
def SseParser.finish (p : SseParser) : Except AgentError (List ContentBlock × StopReason) :=
  match p.stop_reason with
  | some s => .ok (p.blocks.filter keepBlock, s)
  | none =>
      if p.message_complete then .ok (p.blocks.filter keepBlock, StopReason.EndTurn)
      else .error (AgentError.StreamParse "stream ended without stop_reason")

/-- Does this payload, delivered under a message_delta event, carry a
recognized stop reason. -/
def recognizedStop (pl : Json) : Bool :=
  match (Json.get (Json.get pl "delta") "stop_reason").asStr with
  | some "end_turn" => true
  | some "tool_use" => true
  | some "max_tokens" => true
  | _ => false

/-- Trace predicate over a line stream, threading the current event name
exactly as process_line does: true when some data payload is delivered
under a message_delta event with a recognized stop reason, or under a
message_stop event. -/
def stopSignals (parse : String → Option Json) : String → List String → Bool
  | _, [] => false
  | ev, line :: rest =>
      if line = "" then stopSignals parse ev rest
      else
        match dropPre "event: " line with
        | some e => stopSignals parse e rest
        | none =>
            match dropPre "data: " line with
            | none => stopSignals parse ev rest
            | some data =>
                match parse data with
                | none => false
                | some pl =>
                    ((ev == "message_delta") && recognizedStop pl)
                      || (ev == "message_stop")
                      || stopSignals parse ev rest

/-- Parse stub returning an empty object for every payload. -/
def wParse0 : String → Option Json := fun _ => some (Json.obj [])

/-- Parse stub returning a message_delta payload with stop_reason
tool_use. -/
def wParse1 : String → Option Json :=
  fun _ => some (Json.obj [("delta", Json.obj [("stop_reason", Json.str "tool_use")])])

/-- Stream with a block event but no stop signal. -/
def wLines0 : List String := ["event: content_block_delta", "data: x"]

/-- Stream delivering a recognized stop reason. -/
def wLines1 : List String := ["event: message_delta", "data: x"]

/-- Stream delivering only message_stop. -/
def wLines2 : List String := ["event: message_stop", "data: x"]

/-- Final state after wLines0 under wParse0. -/
def wQ0 : SseParser := ⟨"content_block_delta", [], [], none, false⟩

/-- Final state after wLines1 under wParse1. -/
def wQ1 : SseParser := ⟨"message_delta", [], [], some StopReason.ToolUse, false⟩

/-- Final state after wLines2 under wParse0. -/
def wQ2 : SseParser := ⟨"message_stop", [], [], none, true⟩

/-- Unparseable accumulated tool-input fragment. -/
def wBadFragment : String := "\x7b\"broken"

theorem blockShape_truncBlock (r : Nat) (b : ContentBlock) :
    blockShape (truncBlock r b).2 = blockShape b := by
  unfold truncBlock
  split
  · rfl
  · cases b <;> simp [blockShape]

theorem shape_truncBlocks (r : Nat) (bs : List ContentBlock) :
    (truncBlocks r bs).2.map blockShape = bs.map blockShape := by
  induction bs generalizing r with
  | nil => rfl
  | cons b bs ih => simp [truncBlocks, blockShape_truncBlock, ih]

theorem convShape_truncMsgs (r : Nat) (ms : List Message) :
    convShape (truncMsgs r ms).2 = convShape ms := by
  induction ms generalizing r with
  | nil => rfl
  | cons m ms ih =>
      simp only [truncMsgs, convShape, List.map_cons] at *
      exact congrArg₂ _ (by simp [msgShape, shape_truncBlocks]) (ih _)

theorem convShape_truncate (conv : List Message) (maxBytes : Nat) :
    convShape (truncate_oversized_blocks conv maxBytes) = convShape conv := by
  unfold truncate_oversized_blocks
  split
  · rfl
  · exact convShape_truncMsgs _ _

theorem firstIsToolResult_msgShape (m : Message) :
    firstIsToolResult (msgShape m) = firstIsToolResult m := by
  unfold firstIsToolResult msgShape
  cases m.content with
  | nil => rfl
  | cons b bs => cases b <;> rfl

theorem firstIsText_of_isBoundaryMsg {m : Message} (h : isBoundaryMsg m = true) :
    firstIsText m = true := by
  unfold isBoundaryMsg at h
  cases hr : m.role with
  | User => rw [hr] at h; exact h
  | Assistant => rw [hr] at h; cases h

theorem mem_boundariesFrom {i n : Nat} {l : List Message}
    (h : i ∈ boundariesFrom n l) :
    n ≤ i ∧ ∃ m, l[i - n]? = some m ∧ isBoundaryMsg m = true := by
  induction l generalizing n with
  | nil => simp [boundariesFrom] at h
  | cons m rest ih =>
      rw [boundariesFrom] at h
      by_cases hb : isBoundaryMsg m
      · rw [if_pos hb] at h
        rcases List.mem_cons.mp h with rfl | h2
        · exact ⟨Nat.le_refl _, m, by simp, hb⟩
        · obtain ⟨hle, m', hm', hbm⟩ := ih h2
          refine ⟨by omega, m', ?_, hbm⟩
          rw [show i - n = (i - (n + 1)) + 1 by omega]
          simpa using hm'
      · rw [if_neg hb] at h
        obtain ⟨hle, m', hm', hbm⟩ := ih h
        refine ⟨by omega, m', ?_, hbm⟩
        rw [show i - n = (i - (n + 1)) + 1 by omega]
        simpa using hm'

theorem firstIsToolResult_eq_false_of_firstIsText {m : Message}
    (h : firstIsText m = true) : firstIsToolResult m = false := by
  unfold firstIsText at h
  unfold firstIsToolResult
  cases hh : m.content.head? with
  | none => simp [hh] at h
  | some b => cases b <;> simp_all

theorem head_not_toolresult_of_boundary {conv R : List Message} {k : Nat} {mb m : Message}
    (hshape : convShape R = convShape (conv.drop k))
    (hmb : conv[k]? = some mb) (hbm : isBoundaryMsg mb = true)
    (hm : R.head? = some m) (htr : firstIsToolResult m = true) : False := by
  have h1 : R.head?.map msgShape = (conv.drop k).head?.map msgShape := by
    have h0 := congrArg List.head? hshape
    simpa only [convShape, List.head?_map] using h0
  rw [hm, List.head?_drop, hmb] at h1
  have h2 : msgShape m = msgShape mb := by
    simpa using h1
  have h3 : firstIsToolResult mb = true := by
    rw [← firstIsToolResult_msgShape mb, ← h2, firstIsToolResult_msgShape m]
    exact htr
  rw [firstIsToolResult_eq_false_of_firstIsText
    (firstIsText_of_isBoundaryMsg hbm)] at h3
  cases h3

/-- C1.  For every conversation and every byte budget, the trimmed result is
— content of Text and ToolResult blocks apart, which content truncation may
shorten but whose arrangement it never changes — the suffix conv.drop k of
the original conversation for some cut index k that is either 0 (nothing
structurally dropped) or the index of a User message whose first content
block is Text.  Hence structural trimming only ever cuts at a user-Text
boundary; every surviving message other than the new first one keeps its
original predecessor, so no surviving ToolResult has its matching assistant
ToolUse message dropped; and the result can only start with a
ToolResult-first message if that message is original message 0. -/
theorem trim_conversation_preserves_pairing (conv : List Message) (maxBytes : Nat) :
    ∃ k, convShape (trim_conversation conv maxBytes) = convShape (conv.drop k) ∧
      (k = 0 ∨ ∃ m, conv[k]? = some m ∧ isBoundaryMsg m = true) ∧
      (∀ m, (trim_conversation conv maxBytes).head? = some m →
        firstIsToolResult m = true → k = 0) := by
  unfold trim_conversation
  by_cases h1 : convSize conv ≤ maxBytes
  · exact ⟨0, by simp [h1], Or.inl rfl, fun _ _ _ => rfl⟩
  · rw [if_neg h1]
    by_cases h2 : (boundariesFrom 0 conv).length - 1 = 0
    · refine ⟨0, ?_, Or.inl rfl, fun _ _ _ => rfl⟩
      rw [if_pos h2, List.drop_zero]
      exact convShape_truncate conv maxBytes
    · rw [if_neg h2]
      cases hf : ((boundariesFrom 0 conv).drop 1).find?
          (fun cut => convSize conv - ((conv.map msgSize).take cut).sum ≤ maxBytes) with
      | some cut =>
          have hmem : cut ∈ boundariesFrom 0 conv :=
            List.drop_subset 1 _ (List.mem_of_find?_eq_some hf)
          obtain ⟨-, m, hm, hbm⟩ := mem_boundariesFrom hmem
          refine ⟨cut, rfl, Or.inr ⟨m, by simpa using hm, hbm⟩, ?_⟩
          intro m' hm' htr
          exact absurd (head_not_toolresult_of_boundary rfl (by simpa using hm)
            hbm hm' htr) (by simp)
      | none =>
          have hne : boundariesFrom 0 conv ≠ [] := by
            intro hnil
            rw [hnil] at h2
            exact h2 rfl
          obtain ⟨a, ha⟩ := Option.ne_none_iff_exists'.mp
            (mt List.getLast?_eq_none_iff.mp hne)
          have hmem : a ∈ boundariesFrom 0 conv := List.mem_of_mem_getLast? ha
          obtain ⟨-, m, hm, hbm⟩ := mem_boundariesFrom hmem
          have hsh : convShape (truncate_oversized_blocks
              (conv.drop ((boundariesFrom 0 conv).getLast?.getD 0)) maxBytes)
              = convShape (conv.drop a) := by
            rw [ha]
            exact convShape_truncate _ _
          refine ⟨a, hsh, Or.inr ⟨m, by simpa using hm, hbm⟩, ?_⟩
          intro m' hm' htr
          exact absurd (head_not_toolresult_of_boundary hsh (by simpa using hm)
            hbm hm' htr) (by simp)

/-- C7.  Error recovery: if the conversation ends with an Assistant message
followed by a User message whose first block is a ToolResult, both are
dropped; if it ends with a User message whose first block is Text, only that
message is dropped; an empty conversation and a conversation ending in an
Assistant message are left unchanged. -/
theorem recover_conversation_spec (conv : List Message) :
    (∀ pre a u, conv = pre ++ [a, u] → a.role = Role.Assistant →
      u.role = Role.User → firstIsToolResult u = true →
      recover_conversation conv = pre) ∧
    (∀ pre u, conv = pre ++ [u] → u.role = Role.User → firstIsText u = true →
      recover_conversation conv = pre) ∧
    (conv = [] → recover_conversation conv = conv) ∧
    (∀ pre a, conv = pre ++ [a] → a.role = Role.Assistant →
      recover_conversation conv = conv) := by
  refine ⟨?_, ?_, ?_, ?_⟩
  · rintro pre a u rfl ha hu htr
    have : pre ++ [a, u] = (pre ++ [a]) ++ [u] := by simp
    rw [this]
    unfold recover_conversation
    rw [List.getLast?_concat, List.dropLast_concat]
    simp only [hu, if_pos rfl, htr, if_pos rfl, List.getLast?_concat,
      List.dropLast_concat, ha]
    simp
  · rintro pre u rfl hu ht
    unfold recover_conversation
    rw [List.getLast?_concat, List.dropLast_concat]
    simp only [hu, if_pos rfl, firstIsToolResult_eq_false_of_firstIsText ht,
      Bool.false_eq_true, if_neg (by simp : ¬False)]
    simp
  · rintro rfl
    rfl
  · rintro pre a rfl ha
    unfold recover_conversation
    rw [List.getLast?_concat]
    simp [ha]

theorem charBytes_pos (c : Char) : 0 < charBytes c := by
  unfold charBytes
  split
  · exact Nat.one_pos
  · split
    · exact Nat.zero_lt_two
    · split
      · exact Nat.zero_lt_succ 2
      · exact Nat.zero_lt_succ 3

theorem charBytes_le_four (c : Char) : charBytes c ≤ 4 := by
  unfold charBytes
  split
  · omega
  · split
    · omega
    · split
      · omega
      · omega

theorem utf8Len_append (a b : List Char) : utf8Len (a ++ b) = utf8Len a + utf8Len b := by
  unfold utf8Len
  rw [List.map_append, List.sum_append]

theorem strBytes_append (a b : String) : strBytes (a ++ b) = strBytes a + strBytes b := by
  unfold strBytes
  rw [String.data_append, utf8Len_append]

theorem utf8Len_replicate (n : Nat) (c : Char) :
    utf8Len (List.replicate n c) = n * charBytes c := by
  induction n with
  | zero => simp [utf8Len]
  | succ n ih =>
      rw [List.replicate_succ]
      unfold utf8Len at *
      simp only [List.map_cons, List.sum_cons, ih]
      ring

theorem takeBytes_replicate (n : Nat) (c : Char) (k : Nat) :
    takeBytes (List.replicate n c) k
      = List.replicate (min (k / charBytes c) n) c := by
  induction n generalizing k with
  | zero => simp [takeBytes]
  | succ n ih =>
      rw [List.replicate_succ]
      unfold takeBytes
      by_cases h : charBytes c ≤ k
      · rw [if_pos h, ih]
        have hdiv : k / charBytes c = (k - charBytes c) / charBytes c + 1 :=
          Nat.div_eq_sub_div (charBytes_pos c) h
        rw [hdiv, Nat.succ_min_succ, List.replicate_succ]
      · rw [if_neg h]
        have : k / charBytes c = 0 := Nat.div_eq_of_lt (by omega)
        rw [this]
        simp

theorem takeBytes_isPrefixOf (l : List Char) (k : Nat) : takeBytes l k <+: l := by
  induction l generalizing k with
  | nil => simp [takeBytes]
  | cons c cs ih =>
      unfold takeBytes
      by_cases h : charBytes c ≤ k
      · rw [if_pos h]
        obtain ⟨t, ht⟩ := ih (k - charBytes c)
        exact ⟨t, by rw [List.cons_append, ht]⟩
      · rw [if_neg h]
        exact List.nil_prefix

theorem utf8Len_takeBytes_le (l : List Char) (k : Nat) : utf8Len (takeBytes l k) ≤ k := by
  induction l generalizing k with
  | nil => simp [takeBytes, utf8Len]
  | cons c cs ih =>
      unfold takeBytes
      by_cases h : charBytes c ≤ k
      · rw [if_pos h]
        unfold utf8Len at *
        simp only [List.map_cons, List.sum_cons]
        have := ih (k - charBytes c)
        omega
      · rw [if_neg h]
        simp [utf8Len]

theorem utf8Len_takeBytes_lt_add_four (l : List Char) (k : Nat) (h : k ≤ utf8Len l) :
    k < utf8Len (takeBytes l k) + 4 := by
  induction l generalizing k with
  | nil =>
      simp only [utf8Len, List.map_nil, List.sum_nil, Nat.le_zero] at h
      simp [h, takeBytes, utf8Len]
  | cons c cs ih =>
      unfold takeBytes
      by_cases hc : charBytes c ≤ k
      · rw [if_pos hc]
        unfold utf8Len at *
        simp only [List.map_cons, List.sum_cons] at h ⊢
        have := ih (k - charBytes c) (by omega)
        omega
      · rw [if_neg hc]
        have := charBytes_le_four c
        simp only [utf8Len, List.map_nil, List.sum_nil]
        omega

theorem flatMap_escChar_eq_self {l : List Char} (h : ∀ c ∈ l, escChar c = [c]) :
    l.flatMap escChar = l := by
  induction l with
  | nil => rfl
  | cons c cs ih =>
      rw [List.flatMap_cons, h c (by simp), ih fun d hd => h d (by simp [hd])]
      rfl

theorem escStr_eq_self {s : String} (h : ∀ c ∈ s.data, escChar c = [c]) : escStr s = s := by
  unfold escStr
  rw [flatMap_escChar_eq_self h]

theorem strBytes_escStr_eq {s : String} (h : ∀ c ∈ s.data, escChar c = [c]) :
    strBytes (escStr s) = strBytes s := by
  rw [escStr_eq_self h]

theorem msgSize_user_text (t : String) :
    msgSize ⟨Role.User, [ContentBlock.Text t]⟩ = userTextOverhead + strBytes (escStr t) := by
  have hempty : escStr "" = "" := rfl
  unfold userTextOverhead msgSize serializeMessage serializeBlocks serializeBlock jstr
  simp only [hempty, strBytes_append]
  have hz : strBytes "" = 0 := rfl
  omega

theorem userTextOverhead_eq : userTextOverhead = 53 := by decide

theorem charBytes_x : charBytes 'x' = 1 := by decide

theorem charBytes_y : charBytes 'y' = 1 := by decide

theorem strBytes_mk_cons_replicate (c d : Char) (n : Nat) :
    strBytes (String.mk (c :: List.replicate n d)) = charBytes c + n * charBytes d := by
  show utf8Len (c :: List.replicate n d) = _
  unfold utf8Len
  rw [List.map_cons, List.sum_cons]
  rw [show (List.map charBytes (List.replicate n d)).sum
      = utf8Len (List.replicate n d) from rfl]
  rw [utf8Len_replicate]

theorem strBytes_mk_replicate (d : Char) (n : Nat) :
    strBytes (String.mk (List.replicate n d)) = n * charBytes d := by
  show utf8Len (List.replicate n d) = _
  rw [utf8Len_replicate]

theorem strBytes_c2Text : strBytes c2Text = 10001 := by
  unfold c2Text
  rw [strBytes_mk_cons_replicate, charBytes_y, charBytes_x]

theorem byteTake_c2Text : byteTake c2Text 9996 = c2Retained := by
  show String.mk (takeBytes ('y' :: List.replicate 10000 'x') 9996)
      = String.mk ('y' :: List.replicate 9995 'x')
  rw [takeBytes, if_pos (by rw [charBytes_y]; omega), charBytes_y,
    takeBytes_replicate, charBytes_x]
  norm_num

theorem strBytes_c2Retained : strBytes c2Retained = 9996 := by
  unfold c2Retained
  rw [strBytes_mk_cons_replicate, charBytes_y, charBytes_x]

theorem escStr_c2Text : strBytes (escStr c2Text) = strBytes c2Text := by
  refine strBytes_escStr_eq fun c hc => ?_
  rcases List.mem_cons.mp hc with rfl | hc
  · decide
  · rw [List.eq_of_mem_replicate hc]
    decide

theorem msgSize_c2Msg : msgSize c2Msg = 10054 := by
  show msgSize ⟨Role.User, [ContentBlock.Text c2Text]⟩ = 10054
  rw [msgSize_user_text, userTextOverhead_eq, escStr_c2Text, strBytes_c2Text]

theorem truncText_c2 : truncText 5 c2Text = (0, c2Retained ++ truncMarker) := by
  unfold truncText
  rw [strBytes_c2Text, if_pos (by omega),
    show Nat.max (10001 - 5) 1000 = 9996 by decide, byteTake_c2Text, strBytes_c2Retained]

theorem convSize_single (m : Message) : convSize [m] = msgSize m := by
  simp [convSize]

theorem truncBlock_zero (b : ContentBlock) : truncBlock 0 b = (0, b) := by
  unfold truncBlock
  rw [if_pos rfl]

theorem truncBlocks_zero (bs : List ContentBlock) : truncBlocks 0 bs = (0, bs) := by
  induction bs with
  | nil => rfl
  | cons b bs ih => simp only [truncBlocks, truncBlock_zero, ih]

theorem truncMsgs_zero (ms : List Message) : truncMsgs 0 ms = (0, ms) := by
  induction ms with
  | nil => rfl
  | cons m ms ih => simp only [truncMsgs, truncBlocks_zero, ih]

theorem truncBlock_c2 :
    truncBlock 5 (ContentBlock.Text c2Text)
      = (0, ContentBlock.Text (c2Retained ++ truncMarker)) := by
  simp only [truncBlock]
  rw [if_neg (by omega), truncText_c2]

theorem truncMsgs_c2 :
    truncMsgs 5 [c2Msg]
      = (0, [⟨Role.User, [ContentBlock.Text (c2Retained ++ truncMarker)]⟩]) := by
  show truncMsgs 5 [⟨Role.User, [ContentBlock.Text c2Text]⟩] = _
  simp only [truncMsgs, truncBlocks, truncBlock_c2]

/-- C2 counterexample.  At the concrete conversation [c2Msg] (one User
message holding one 10001-byte Text block starting with a distinguished
character) and a budget 5 bytes short, the fallback retains the HEAD of the
block's text plus the marker, and that retained head is not a tail (suffix)
of the original text — refuting the claim that blocks are shortened by
removing leading characters. -/
theorem content_truncation_keeps_head_not_tail :
    truncate_oversized_blocks [c2Msg] c2Budget
      = [⟨Role.User, [ContentBlock.Text (c2Retained ++ truncMarker)]⟩] ∧
    ¬ c2Retained.data <:+ c2Text.data := by
  constructor
  · have hb : c2Budget = 10049 := by unfold c2Budget; rw [msgSize_c2Msg]
    unfold truncate_oversized_blocks
    rw [convSize_single, msgSize_c2Msg, hb, if_neg (by omega)]
    rw [show (10054 - 10049 : Nat) = 5 from rfl]
    rw [truncMsgs_c2]
  · intro hsuf
    have h := List.suffix_iff_eq_drop.mp hsuf
    rw [show c2Retained.data = 'y' :: List.replicate 9995 'x' from rfl,
      show c2Text.data = 'y' :: List.replicate 10000 'x' from rfl] at h
    rw [List.length_cons, List.length_cons, List.length_replicate,
      List.length_replicate] at h
    rw [show (10000 + 1 - (9995 + 1) : Nat) = 4 + 1 from rfl,
      List.drop_succ_cons, List.drop_replicate] at h
    rw [show (10000 - 4 : Nat) = 9995 + 1 from rfl, List.replicate_succ] at h
    injection h with h1 h2
    exact absurd h1 (by decide)

/-- C2 (amended).  In the content-truncation fallback, every eligible block
(a Text or ToolResult whose text exceeds the 10000-byte threshold, reached
while the deficit is still positive) is shortened by removing TRAILING
characters: the retained text is the character-boundary prefix of the
original of target byte length original-length minus deficit, floored at
1000 bytes; the truncated marker is appended; the deficit bookkeeping
contributes at most the remaining deficit per block (the new deficit is the
saturating difference); and processing stops once the deficit reaches
zero. -/
theorem truncation_fallback_shortens_from_end :
    (∀ b : ContentBlock, truncBlock 0 b = (0, b)) ∧
    (∀ bs : List ContentBlock, truncBlocks 0 bs = (0, bs)) ∧
    (∀ ms : List Message, truncMsgs 0 ms = (0, ms)) ∧
    (∀ (r : Nat) (t : String), 0 < r → 10000 < strBytes t →
      truncBlock r (ContentBlock.Text t)
        = (r - (strBytes t - strBytes (byteTake t (Nat.max (strBytes t - r) 1000))),
           ContentBlock.Text (byteTake t (Nat.max (strBytes t - r) 1000) ++ truncMarker))) ∧
    (∀ (r : Nat) (tuid t : String) (e : Option Bool), 0 < r → 10000 < strBytes t →
      truncBlock r (ContentBlock.ToolResult tuid t e)
        = (r - (strBytes t - strBytes (byteTake t (Nat.max (strBytes t - r) 1000))),
           ContentBlock.ToolResult tuid
             (byteTake t (Nat.max (strBytes t - r) 1000) ++ truncMarker) e)) ∧
    (∀ (r : Nat) (b : ContentBlock), (truncBlock r b).1 ≤ r) ∧
    (∀ (r : Nat) (t : String),
      (byteTake t (Nat.max (strBytes t - r) 1000)).data <+: t.data) := by
  refine ⟨truncBlock_zero, truncBlocks_zero, truncMsgs_zero, ?_, ?_, ?_, ?_⟩
  · intro r t hr ht
    simp only [truncBlock]
    rw [if_neg (by omega)]
    unfold truncText
    rw [if_pos ht]
  · intro r tuid t e hr ht
    simp only [truncBlock]
    rw [if_neg (by omega)]
    unfold truncText
    rw [if_pos ht]
  · intro r b
    by_cases hr : r = 0
    · subst hr
      rw [truncBlock_zero]
    · unfold truncBlock
      rw [if_neg hr]
      cases b with
      | Text t =>
          show (truncText r t).1 ≤ r
          unfold truncText
          by_cases hb : strBytes t > 10000
          · rw [if_pos hb]
            exact Nat.sub_le _ _
          · rw [if_neg hb]
      | ToolUse id name input => exact Nat.le_refl r
      | ToolResult tuid c e =>
          show (truncText r c).1 ≤ r
          unfold truncText
          by_cases hb : strBytes c > 10000
          · rw [if_pos hb]
            exact Nat.sub_le _ _
          · rw [if_neg hb]
  · intro r t
    exact takeBytes_isPrefixOf t.data (Nat.max (strBytes t - r) 1000)

/-- Witness for the amended C2 theorem at concrete inputs: a zero deficit
leaves a block untouched, and at deficit 5 the 10001-byte c2Text block is
cut to its 9996-byte head plus the marker, consuming the whole deficit. -/
theorem truncation_fallback_shortens_from_end_witness :
    truncBlock 0 (ContentBlock.Text "abc") = (0, ContentBlock.Text "abc") ∧
    (0 : Nat) < 5 ∧ 10000 < strBytes c2Text ∧
    truncBlock 5 (ContentBlock.Text c2Text)
      = (0, ContentBlock.Text (c2Retained ++ truncMarker)) := by
  have h5 : (0 : Nat) < 5 := by omega
  have hT : 10000 < strBytes c2Text := by rw [strBytes_c2Text]; omega
  refine ⟨truncation_fallback_shortens_from_end.1 _, h5, hT, ?_⟩
  rw [truncation_fallback_shortens_from_end.2.2.2.1 5 c2Text h5 hT]
  rw [strBytes_c2Text, show Nat.max (10001 - 5) 1000 = 9996 by decide,
    byteTake_c2Text, strBytes_c2Retained]

/-- C8.  Both truncation routines cut at a character boundary: the retained
text is a whole-character prefix of the original whose byte length is at
most the cap (truncate_with_marker) resp. at most the computed keep target
(truncate_oversized_blocks), and the result is that prefix followed by the
marker.  In this embedding strings are sequences of whole characters, so
the result being expressible at all means no multi-byte character is split
and the output is valid UTF-8; the Rust operations modelled (truncate at
floor_char_boundary, truncate at the found is_char_boundary index) cannot
panic at such an index. -/
theorem truncation_is_utf8_boundary_safe :
    (∀ (s : String) (cap : Nat),
      truncate_with_marker s cap = byteTake s cap ++ bashTruncMarker ∧
      (byteTake s cap).data <+: s.data ∧
      strBytes (byteTake s cap) ≤ cap) ∧
    (∀ (r : Nat) (t : String), 10000 < strBytes t →
      (truncText r t).2
        = byteTake t (Nat.max (strBytes t - r) 1000) ++ truncMarker ∧
      (byteTake t (Nat.max (strBytes t - r) 1000)).data <+: t.data ∧
      strBytes (byteTake t (Nat.max (strBytes t - r) 1000))
        ≤ Nat.max (strBytes t - r) 1000) := by
  constructor
  · intro s cap
    exact ⟨rfl, takeBytes_isPrefixOf s.data cap, utf8Len_takeBytes_le s.data cap⟩
  · intro r t ht
    refine ⟨?_, takeBytes_isPrefixOf t.data _, utf8Len_takeBytes_le t.data _⟩
    unfold truncText
    rw [if_pos ht]

theorem charBytes_e : charBytes 'é' = 2 := by decide

theorem strBytes_mbText : strBytes mbText = 10002 := by
  unfold mbText
  rw [strBytes_mk_replicate, charBytes_e]

theorem byteTake_mbText : byteTake mbText 9995 = String.mk (List.replicate 4997 'é') := by
  unfold mbText byteTake
  rw [show (String.mk (List.replicate 5001 'é')).data = List.replicate 5001 'é' from rfl,
    takeBytes_replicate, charBytes_e]
  norm_num

/-- Witness for C8 at concrete inputs: a 3-byte cap on a string of 2-byte
characters retains exactly one whole character, and the fallback cut of the
10002-byte mbText at target 9995 lands on the 9994-byte boundary (4997 whole
characters) — both snapped, never splitting a character. -/
theorem truncation_is_utf8_boundary_safe_witness :
    truncate_with_marker "ééé" 3 = "é" ++ bashTruncMarker ∧
    10000 < strBytes mbText ∧
    (truncText 7 mbText).2 = String.mk (List.replicate 4997 'é') ++ truncMarker := by
  have hT : 10000 < strBytes mbText := by rw [strBytes_mbText]; omega
  refine ⟨?_, hT, ?_⟩
  · rw [(truncation_is_utf8_boundary_safe.1 "ééé" 3).1,
      show byteTake "ééé" 3 = "é" by decide]
  · rw [(truncation_is_utf8_boundary_safe.2 7 mbText hT).1, strBytes_mbText,
      show Nat.max (10002 - 7) 1000 = 9995 by decide, byteTake_mbText]

theorem strBytes_c10Text : strBytes c10Text = 20000 := by
  unfold c10Text
  rw [strBytes_mk_replicate, charBytes_x]

theorem escStr_c10Text : strBytes (escStr c10Text) = strBytes c10Text := by
  refine strBytes_escStr_eq fun c hc => ?_
  rw [List.eq_of_mem_replicate hc]
  decide

theorem msgSize_c10Msg : msgSize c10Msg = 20053 := by
  show msgSize ⟨Role.User, [ContentBlock.Text c10Text]⟩ = 20053
  rw [msgSize_user_text, userTextOverhead_eq, escStr_c10Text, strBytes_c10Text]

theorem byteTake_c10Text : byteTake c10Text 1000 = c10Kept := by
  unfold c10Text c10Kept byteTake
  rw [show (String.mk (List.replicate 20000 'x')).data = List.replicate 20000 'x' from rfl,
    takeBytes_replicate, charBytes_x]
  norm_num

theorem strBytes_c10Kept : strBytes c10Kept = 1000 := by
  unfold c10Kept
  rw [strBytes_mk_replicate, charBytes_x]

theorem truncText_c10 : truncText 19953 c10Text = (953, c10Kept ++ truncMarker) := by
  unfold truncText
  rw [strBytes_c10Text, if_pos (by omega),
    show Nat.max (20000 - 19953) 1000 = 1000 by decide, byteTake_c10Text,
    strBytes_c10Kept]

theorem truncBlock_c10 :
    truncBlock 19953 (ContentBlock.Text c10Text)
      = (953, ContentBlock.Text (c10Kept ++ truncMarker)) := by
  simp only [truncBlock]
  rw [if_neg (by omega), truncText_c10]

theorem truncMsgs_c10 : truncMsgs 19953 [c10Msg] = (953, [c10Result]) := by
  show truncMsgs 19953 [⟨Role.User, [ContentBlock.Text c10Text]⟩] = _
  simp only [truncMsgs, truncBlocks, truncBlock_c10]
  rfl

theorem escStr_append (a b : String) : escStr (a ++ b) = escStr a ++ escStr b := by
  unfold escStr
  rw [String.data_append, List.flatMap_append]
  rfl

theorem escStr_c10Kept : strBytes (escStr c10Kept) = 1000 := by
  rw [strBytes_escStr_eq, strBytes_c10Kept]
  intro c hc
  rw [List.eq_of_mem_replicate hc]
  decide

theorem msgSize_c10Result : msgSize c10Result = 1092 := by
  show msgSize ⟨Role.User, [ContentBlock.Text (c10Kept ++ truncMarker)]⟩ = 1092
  rw [msgSize_user_text, userTextOverhead_eq, escStr_append, strBytes_append,
    escStr_c10Kept, show strBytes (escStr truncMarker) = 39 by decide]

/-- C10.  The content-truncation fallback never modifies a Text or
ToolResult block whose text is at most 10000 bytes, never modifies a
ToolUse block, and every block it does shorten retains the head prefix of
target byte length at least 1000 (the keep floor), snapped down to a
character boundary by strictly less than 4 bytes (so more than 996 bytes of
original text remain before the marker).  Consequently the result need not
fit the budget: on the concrete conversation [c10Msg] with budget 100
bytes, the fallback leaves a conversation of serialized size 1092. -/
theorem truncation_fallback_limits :
    (∀ (r : Nat) (t : String), strBytes t ≤ 10000 →
      truncBlock r (ContentBlock.Text t) = (r, ContentBlock.Text t)) ∧
    (∀ (r : Nat) (tuid t : String) (e : Option Bool), strBytes t ≤ 10000 →
      truncBlock r (ContentBlock.ToolResult tuid t e)
        = (r, ContentBlock.ToolResult tuid t e)) ∧
    (∀ (r : Nat) (id name : String) (input : Json),
      truncBlock r (ContentBlock.ToolUse id name input)
        = (r, ContentBlock.ToolUse id name input)) ∧
    (∀ (r : Nat) (t : String), 0 < r → 10000 < strBytes t →
      1000 ≤ Nat.max (strBytes t - r) 1000 ∧
      (truncBlock r (ContentBlock.Text t)).2
        = ContentBlock.Text (byteTake t (Nat.max (strBytes t - r) 1000) ++ truncMarker) ∧
      996 < strBytes (byteTake t (Nat.max (strBytes t - r) 1000))) ∧
    truncate_oversized_blocks [c10Msg] 100 = [c10Result] ∧
    100 < convSize [c10Result] := by
  refine ⟨?_, ?_, ?_, ?_, ?_, ?_⟩
  · intro r t ht
    by_cases hr : r = 0
    · subst hr
      exact truncBlock_zero _
    · unfold truncBlock
      rw [if_neg hr]
      show ((truncText r t).1, ContentBlock.Text (truncText r t).2) = _
      unfold truncText
      rw [if_neg (by omega)]
  · intro r tuid t e ht
    by_cases hr : r = 0
    · subst hr
      exact truncBlock_zero _
    · unfold truncBlock
      rw [if_neg hr]
      show ((truncText r t).1, ContentBlock.ToolResult tuid (truncText r t).2 e) = _
      unfold truncText
      rw [if_neg (by omega)]
  · intro r id name input
    by_cases hr : r = 0
    · subst hr
      exact truncBlock_zero _
    · unfold truncBlock
      rw [if_neg hr]
  · intro r t hr ht
    have hkeep : Nat.max (strBytes t - r) 1000 ≤ strBytes t :=
      Nat.max_le.mpr ⟨Nat.sub_le _ _, by omega⟩
    have hlow : (1000 : Nat) ≤ Nat.max (strBytes t - r) 1000 := Nat.le_max_right _ _
    refine ⟨hlow, ?_, ?_⟩
    · unfold truncBlock
      rw [if_neg (by omega)]
      show ContentBlock.Text (truncText r t).2 = _
      unfold truncText
      rw [if_pos ht]
    · have h4 := utf8Len_takeBytes_lt_add_four t.data (Nat.max (strBytes t - r) 1000) hkeep
      show 996 < utf8Len (takeBytes t.data (Nat.max (strBytes t - r) 1000))
      omega
  · unfold truncate_oversized_blocks
    rw [convSize_single, msgSize_c10Msg, if_neg (by omega)]
    rw [show (20053 - 100 : Nat) = 19953 from rfl]
    rw [truncMsgs_c10]
  · rw [convSize_single, msgSize_c10Result]
    omega

/-- Witness for C10 at concrete inputs: a 3-byte Text block passes through
untouched at any deficit, a ToolUse block likewise, and the eligible
10001-byte c2Text block at deficit 5 keeps a 9996-byte head, far above the
996-byte floor guarantee. -/
theorem truncation_fallback_limits_witness :
    strBytes "abc" ≤ 10000 ∧
    truncBlock 7 (ContentBlock.Text "abc") = (7, ContentBlock.Text "abc") ∧
    truncBlock 7 (ContentBlock.ToolUse "t1" "bash" Json.null)
      = (7, ContentBlock.ToolUse "t1" "bash" Json.null) ∧
    (0 : Nat) < 5 ∧ 10000 < strBytes c2Text ∧
    (truncBlock 5 (ContentBlock.Text c2Text)).2
      = ContentBlock.Text (c2Retained ++ truncMarker) ∧
    996 < strBytes c2Retained := by
  have ha : strBytes "abc" ≤ 10000 := by decide
  have h5 : (0 : Nat) < 5 := by omega
  have hT : 10000 < strBytes c2Text := by rw [strBytes_c2Text]; omega
  obtain ⟨-, heq, hfloor⟩ := truncation_fallback_limits.2.2.2.1 5 c2Text h5 hT
  refine ⟨ha, truncation_fallback_limits.1 7 "abc" ha,
    truncation_fallback_limits.2.2.1 7 "t1" "bash" Json.null, h5, hT, ?_, ?_⟩
  · rw [heq, strBytes_c2Text, show Nat.max (10001 - 5) 1000 = 9996 by decide,
      byteTake_c2Text]
  · rw [strBytes_c2Retained]
    omega

/-- Witness for C7 at concrete conversations: a trailing tool-result
exchange loses both its messages, a trailing user text message is popped
alone, and an empty conversation and one ending in an assistant message are
untouched. -/
theorem recover_conversation_spec_witness :
    recover_conversation [wUserText, wAssistantTool, wUserToolResult] = [wUserText] ∧
    recover_conversation [wUserText] = [] ∧
    recover_conversation ([] : List Message) = [] ∧
    recover_conversation [wUserText, wAssistantText] = [wUserText, wAssistantText] := by
  refine ⟨?_, ?_, ?_, ?_⟩
  · exact (recover_conversation_spec _).1 [wUserText] wAssistantTool wUserToolResult
      rfl rfl rfl rfl
  · exact (recover_conversation_spec _).2.1 [] wUserText rfl rfl rfl
  · exact (recover_conversation_spec _).2.2.1 rfl
  · exact (recover_conversation_spec _).2.2.2 [wUserText] wAssistantText rfl rfl

theorem replaceFirst_decomp {pat : List Char} (rep : List Char) :
    ∀ s : List Char, 0 < countOccs pat s →
      ∃ pre post, s = pre ++ pat ++ post ∧ replaceFirst pat rep s = pre ++ rep ++ post := by
  intro s
  induction s with
  | nil => intro h; simp [countOccs, countOccsAux] at h
  | cons c rest ih =>
      intro h
      by_cases hp : pat.isPrefixOf (c :: rest)
      · have hpre : pat <+: c :: rest := List.isPrefixOf_iff_prefix.mp hp
        obtain ⟨post, hpost⟩ := hpre
        refine ⟨[], post, by rw [List.nil_append, hpost], ?_⟩
        rw [replaceFirst, if_pos hp, List.nil_append]
        have hdrop : List.drop pat.length (c :: rest) = post := by
          rw [← hpost, List.drop_left]
        rw [hdrop]
      · rw [countOccs, countOccsAux, if_neg hp] at h
        obtain ⟨pre, post, hs, hr⟩ := ih h
        refine ⟨c :: pre, post, by rw [hs]; simp, ?_⟩
        rw [replaceFirst, if_neg hp, hr]
        simp

/-- C6.  On an existing file within the size ceiling, with non-empty
old_str different from new_str: zero occurrences yield the "not found"
error, two or more occurrences yield the error naming the count, and
exactly one occurrence replaces precisely that occurrence (the content
splits as pre ++ old_str ++ post and the written file is
pre ++ new_str ++ post); equal old_str and new_str are rejected for every
file state.  In each error case the file is left unchanged. -/
theorem edit_exec_uniqueness (path content old_str new_str : String)
    (hsize : strBytes content ≤ MAX_READ_SIZE)
    (hne : old_str ≠ "") (hdiff : old_str ≠ new_str) :
    (strCount content old_str = 0 →
      edit_exec (some content) path old_str new_str
        = ⟨.error "old_str not found", some content⟩) ∧
    (∀ n, strCount content old_str = n + 2 →
      edit_exec (some content) path old_str new_str
        = ⟨.error ("old_str found " ++ toString (n + 2) ++ " times, must be unique"),
           some content⟩) ∧
    (strCount content old_str = 1 →
      edit_exec (some content) path old_str new_str
        = ⟨.ok "OK", some (strReplaceFirst content old_str new_str)⟩ ∧
      ∃ pre post, content.data = pre ++ old_str.data ++ post ∧
        (strReplaceFirst content old_str new_str).data = pre ++ new_str.data ++ post) ∧
    (∀ (file : Option String) (s : String),
      edit_exec file path s s = ⟨.error "old_str and new_str must differ", file⟩) := by
  have hbase : ∀ k, strCount content old_str = k →
      edit_exec (some content) path old_str new_str
        = (match k with
           | 0 => ⟨.error "old_str not found", some content⟩
           | 1 => ⟨.ok "OK", some (strReplaceFirst content old_str new_str)⟩
           | Nat.succ (Nat.succ n) =>
               ⟨.error ("old_str found " ++ toString (n + 2) ++ " times, must be unique"),
                some content⟩) := by
    intro k hk
    unfold edit_exec
    rw [if_neg hdiff]
    change (if strBytes content > MAX_READ_SIZE then _ else _) = _
    rw [if_neg (by omega), if_neg hne, hk]
  refine ⟨fun h0 => hbase 0 h0, fun n hn => hbase (n + 2) hn, fun h1 => ⟨hbase 1 h1, ?_⟩, ?_⟩
  · obtain ⟨pre, post, hs, hr⟩ :=
      @replaceFirst_decomp old_str.data new_str.data content.data
        (by unfold strCount at h1; omega)
    exact ⟨pre, post, hs, by unfold strReplaceFirst; rw [hr]⟩
  · intro file s
    unfold edit_exec
    rw [if_pos rfl]

/-- Witness for C6 at concrete inputs, including the spec's cited example:
on content "aaa" with old_str "a" the count is 3 and the error names it;
"hello" with old_str "zz" is not found; "hello" with the unique old_str
"ell" is rewritten to "hxyzo"; equal arguments are rejected. -/
theorem edit_exec_uniqueness_witness :
    strBytes "aaa" ≤ MAX_READ_SIZE ∧ ("a" : String) ≠ "" ∧ ("a" : String) ≠ "b" ∧
    strCount "aaa" "a" = 3 ∧
    edit_exec (some "aaa") "f.txt" "a" "b"
      = ⟨.error "old_str found 3 times, must be unique", some "aaa"⟩ ∧
    strCount "hello" "zz" = 0 ∧
    edit_exec (some "hello") "f.txt" "zz" "q"
      = ⟨.error "old_str not found", some "hello"⟩ ∧
    strCount "hello" "ell" = 1 ∧
    edit_exec (some "hello") "f.txt" "ell" "xyz" = ⟨.ok "OK", some "hxyzo"⟩ ∧
    edit_exec (none : Option String) "f.txt" "s" "s"
      = ⟨.error "old_str and new_str must differ", none⟩ := by
  have h3 : strCount "aaa" "a" = 3 := by decide
  have h0 : strCount "hello" "zz" = 0 := by decide
  have h1 : strCount "hello" "ell" = 1 := by decide
  have hsz : strBytes "aaa" ≤ MAX_READ_SIZE := by decide
  have hsz2 : strBytes "hello" ≤ MAX_READ_SIZE := by decide
  refine ⟨hsz, by decide, by decide, h3, ?_, h0, ?_, h1, ?_, ?_⟩
  · exact (edit_exec_uniqueness "f.txt" "aaa" "a" "b" hsz (by decide) (by decide)).2.1 1 h3
  · exact (edit_exec_uniqueness "f.txt" "hello" "zz" "q" hsz2 (by decide) (by decide)).1 h0
  · have := ((edit_exec_uniqueness "f.txt" "hello" "ell" "xyz" hsz2 (by decide)
      (by decide)).2.2.1 h1).1
    rw [this, show strReplaceFirst "hello" "ell" "xyz" = "hxyzo" by decide]
  · exact (edit_exec_uniqueness "f.txt" "x" "y" "z" (by decide) (by decide)
      (by decide)).2.2.2 none "s"

/-- C9.  When old_str equals new_str — in particular when both are empty —
edit_exec fails with the dedicated error before any other check, leaving
the file state untouched for every file state; with a nonexistent target
(file = none) no file is created, so the empty-old_str creation path is
unreachable here. -/
theorem edit_exec_rejects_equal_args (file : Option String) (path s : String) :
    edit_exec file path s s = ⟨.error "old_str and new_str must differ", file⟩ := by
  unfold edit_exec
  rw [if_pos rfl]

/-- C3.  For every registered tool name and every behavior of the guarded
tool bodies, handling a ToolUse block whose input is the null sentinel
produces the corrupt-input ToolResult with is_error = true; the result does
not depend on the tool implementations, so no guarded body is invoked. -/
theorem dispatch_null_input_short_circuits (impls : ToolImpls) (id name : String)
    (hname : name ∈ registeredToolNames) :
    handle_tool_use impls id name Json.null
      = ContentBlock.ToolResult id "tool input was corrupt (JSON parse failed)"
          (some true) := by
  unfold handle_tool_use
  rw [if_pos (show Json.isNull Json.null = true from rfl)]

/-- Witness for C3: the bash tool, with bodies that would all succeed if
invoked, still produces the corrupt-input error on null input. -/
theorem dispatch_null_input_short_circuits_witness :
    "bash" ∈ registeredToolNames ∧
    handle_tool_use ⟨fun _ => .ok "r", fun _ => .ok "l", fun _ => .ok "b",
        fun _ => .ok "e", fun _ => .ok "s"⟩ "id9" "bash" Json.null
      = ContentBlock.ToolResult "id9" "tool input was corrupt (JSON parse failed)"
          (some true) := by
  have hm : "bash" ∈ registeredToolNames := by
    unfold registeredToolNames
    simp
  exact ⟨hm, dispatch_null_input_short_circuits _ "id9" "bash" hm⟩

theorem process_event_preserves {parse : String → Option Json} {p : SseParser}
    {pl : Json} {q : SseParser}
    (h : process_event parse p pl = .ok q)
    (hnd : ((p.event == "message_delta") && recognizedStop pl) = false)
    (hns : (p.event == "message_stop") = false) :
    q.stop_reason = p.stop_reason ∧ q.message_complete = p.message_complete ∧
    q.event = p.event := by
  unfold process_event at h
  split at h
  · cases h
    exact ⟨rfl, rfl, rfl⟩
  · repeat' split at h
    all_goals (cases h; exact ⟨rfl, rfl, rfl⟩)
  · repeat' split at h
    all_goals (cases h; exact ⟨rfl, rfl, rfl⟩)
  · rename_i hev
    split at h
    · rename_i hsr
      exfalso
      rw [hev] at hnd
      simp [recognizedStop, hsr] at hnd
    · rename_i hsr
      exfalso
      rw [hev] at hnd
      simp [recognizedStop, hsr] at hnd
    · rename_i hsr
      exfalso
      rw [hev] at hnd
      simp [recognizedStop, hsr] at hnd
    · cases h
      exact ⟨rfl, rfl, rfl⟩
  · rename_i hev
    rw [hev] at hns
    simp at hns
  · cases h
  · cases h
    exact ⟨rfl, rfl, rfl⟩

theorem processLines_no_signal {parse : String → Option Json} :
    ∀ (lines : List String) (p q : SseParser),
      processLines parse p lines = .ok q →
      stopSignals parse p.event lines = false →
      q.stop_reason = p.stop_reason ∧ q.message_complete = p.message_complete := by
  intro lines
  induction lines with
  | nil =>
      intro p q h hs
      simp only [processLines] at h
      cases h
      exact ⟨rfl, rfl⟩
  | cons line rest ih =>
      intro p q h hs
      simp only [processLines] at h
      rw [stopSignals] at hs
      by_cases hblank : line = ""
      · rw [if_pos hblank] at hs
        rw [process_line, if_pos hblank] at h
        exact ih p q h hs
      · rw [if_neg hblank] at hs
        rw [process_line, if_neg hblank] at h
        cases hev : dropPre "event: " line with
        | some e =>
            rw [hev] at h hs
            exact ih { p with event := e } q h hs
        | none =>
            rw [hev] at h hs
            cases hdata : dropPre "data: " line with
            | none =>
                rw [hdata] at h hs
                exact ih p q h hs
            | some data =>
                simp only [hdata] at h hs
                cases hp : parse data with
                | none =>
                    simp only [hp] at h
                    exact absurd h (by simp)
                | some pl =>
                    simp only [hp] at h hs
                    rw [Bool.or_eq_false_iff, Bool.or_eq_false_iff] at hs
                    obtain ⟨⟨h1, h2⟩, h3⟩ := hs
                    cases hpe : process_event parse p pl with
                    | error e =>
                        rw [hpe] at h
                        cases h
                    | ok r =>
                        rw [hpe] at h
                        have hpres := process_event_preserves hpe h1 h2
                        have hq := ih r q h (by rw [hpres.2.2]; exact h3)
                        exact ⟨hq.1.trans hpres.1, hq.2.trans hpres.2.1⟩

/-- C4.  If feeding a whole line stream through the decoder from the
initial state succeeds with final state q, then: when no message_delta
payload delivered a recognized stop reason and no message_stop payload
occurred anywhere in the stream, finish rejects the decode with the
"stream ended without stop_reason" error instead of returning a
(blocks, stop reason) pair; when a stop reason was recorded, finish
returns it with the retained blocks; and when only message_stop was seen,
finish returns EndTurn. -/
theorem finish_requires_stop_reason (parse : String → Option Json)
    (lines : List String) (q : SseParser)
    (h : processLines parse SseParser.init lines = .ok q) :
    (stopSignals parse SseParser.init.event lines = false →
      SseParser.finish q
        = .error (AgentError.StreamParse "stream ended without stop_reason")) ∧
    (∀ s, q.stop_reason = some s →
      SseParser.finish q = .ok (q.blocks.filter keepBlock, s)) ∧
    (q.stop_reason = none → q.message_complete = true →
      SseParser.finish q = .ok (q.blocks.filter keepBlock, StopReason.EndTurn)) := by
  refine ⟨?_, ?_, ?_⟩
  · intro hs
    obtain ⟨h1, h2⟩ := processLines_no_signal lines SseParser.init q h hs
    unfold SseParser.finish
    rw [h1, h2]
    rfl
  · intro s hsr
    unfold SseParser.finish
    rw [hsr]
  · intro hsr hmc
    unfold SseParser.finish
    rw [hsr, hmc]
    rfl

theorem asU64_index (idx : Nat) :
    (Json.get (Json.obj [("index", Json.num (Int.ofNat idx))]) "index").asU64 = some idx := by
  show (Json.num (Int.ofNat idx)).asU64 = some idx
  simp [Json.asU64, Int.toNat_ofNat]

/-- C5.  In the content_block_stop handler, a ToolUse block at the
payload's index whose accumulated fragment is non-empty but fails to parse
gets its input set to the null sentinel, and the step returns success
rather than an error; consequently, once any stop reason is recorded,
finish completes the decode with that ToolUse block present, carrying the
null input (ToolUse blocks survive the placeholder filter). -/
theorem corrupt_tool_input_soft_fails (parse : String → Option Json)
    (blocks : List ContentBlock) (frs : List String) (sr : Option StopReason) (mc : Bool)
    (idx : Nat) (id name : String) (inp : Json) (f : String)
    (hblk : blocks[idx]? = some (ContentBlock.ToolUse id name inp))
    (hfrag : frs[idx]? = some f)
    (hne : f ≠ "")
    (hparse : parse f = none) :
    process_event parse ⟨"content_block_stop", blocks, frs, sr, mc⟩
        (Json.obj [("index", Json.num (Int.ofNat idx))])
      = .ok ⟨"content_block_stop", blocks.set idx (ContentBlock.ToolUse id name Json.null),
          frs, sr, mc⟩ ∧
    (∀ s : StopReason,
      SseParser.finish ⟨"content_block_stop",
          blocks.set idx (ContentBlock.ToolUse id name Json.null), frs, some s, mc⟩
        = .ok ((blocks.set idx (ContentBlock.ToolUse id name Json.null)).filter keepBlock, s) ∧
      ContentBlock.ToolUse id name Json.null
        ∈ (blocks.set idx (ContentBlock.ToolUse id name Json.null)).filter keepBlock) := by
  have hlt : idx < blocks.length := by
    by_contra hge
    rw [List.getElem?_eq_none (by omega)] at hblk
    cases hblk
  constructor
  · simp only [process_event, asU64_index, hblk, hfrag]
    rw [if_pos hne, hparse]
    rfl
  · intro s
    constructor
    · rfl
    · rw [List.mem_filter]
      refine ⟨?_, rfl⟩
      have : (blocks.set idx (ContentBlock.ToolUse id name Json.null))[idx]?
          = some (ContentBlock.ToolUse id name Json.null) := by
        rw [List.getElem?_set_self (by simpa using hlt)]
      exact List.getElem?_mem this

/-- Witness for C4 at concrete streams: a stream with only a block delta
event decodes to a state finish rejects with the missing-stop-reason error;
a recorded tool_use stop reason is returned; message_stop alone yields
EndTurn. -/
theorem finish_requires_stop_reason_witness :
    processLines wParse0 SseParser.init wLines0 = .ok wQ0 ∧
    stopSignals wParse0 SseParser.init.event wLines0 = false ∧
    SseParser.finish wQ0
      = .error (AgentError.StreamParse "stream ended without stop_reason") ∧
    processLines wParse1 SseParser.init wLines1 = .ok wQ1 ∧
    SseParser.finish wQ1 = .ok ([], StopReason.ToolUse) ∧
    processLines wParse0 SseParser.init wLines2 = .ok wQ2 ∧
    SseParser.finish wQ2 = .ok ([], StopReason.EndTurn) := by
  have hp0 : processLines wParse0 SseParser.init wLines0 = .ok wQ0 := rfl
  have hs0 : stopSignals wParse0 SseParser.init.event wLines0 = false := rfl
  have hp1 : processLines wParse1 SseParser.init wLines1 = .ok wQ1 := rfl
  have hp2 : processLines wParse0 SseParser.init wLines2 = .ok wQ2 := rfl
  refine ⟨hp0, hs0, (finish_requires_stop_reason wParse0 wLines0 wQ0 hp0).1 hs0,
    hp1, ?_, hp2, ?_⟩
  · rw [(finish_requires_stop_reason wParse1 wLines1 wQ1 hp1).2.1 StopReason.ToolUse rfl]
    rfl
  · rw [(finish_requires_stop_reason wParse0 wLines2 wQ2 hp2).2.2 rfl rfl]
    rfl

/-- Witness for C5 at a concrete state: one ToolUse block with the
unparseable fragment, under a parse function that rejects it; the stop
event succeeds with the input set to null, and finish (after a stop reason
arrives) returns the block with null input. -/
theorem corrupt_tool_input_soft_fails_witness :
    wBadFragment ≠ "" ∧
    process_event (fun _ => none)
        ⟨"content_block_stop", [ContentBlock.ToolUse "t1" "bash" Json.null],
          [wBadFragment], none, false⟩
        (Json.obj [("index", Json.num (Int.ofNat 0))])
      = .ok ⟨"content_block_stop", [ContentBlock.ToolUse "t1" "bash" Json.null],
          [wBadFragment], none, false⟩ ∧
    SseParser.finish ⟨"content_block_stop",
        [ContentBlock.ToolUse "t1" "bash" Json.null], [wBadFragment],
        some StopReason.ToolUse, false⟩
      = .ok ([ContentBlock.ToolUse "t1" "bash" Json.null], StopReason.ToolUse) := by
  have hne : wBadFragment ≠ "" := by decide
  obtain ⟨h1, h2⟩ := corrupt_tool_input_soft_fails (fun _ => none)
      [ContentBlock.ToolUse "t1" "bash" Json.null] [wBadFragment] none false 0 "t1" "bash"
      Json.null wBadFragment rfl rfl hne rfl
  exact ⟨hne, h1, (h2 StopReason.ToolUse).1⟩

end Forgeflare
